import Mathlib

/-!
Verification of the reconciliation and synchronization engine of the
markdown-to-wiki upload tool.

The definitions are a shallow embedding of the Python modules
`page_cache.py`, `file_api.py`, `child_pages.py`, `page_api.py`,
`resolvers.py` and `common.py`.  Remote HTTP reads and the local
collaborators that the spec treats as external (file system, markdown
renderer, hashing) are modelled by an oracle environment `Env`; every
remote *write* the code issues is recorded in an explicit request trace
so theorems can speak about which mutating calls a run performs.  The
module-level mutable caches of the Python code are collected into one
explicit state record `S`.  Python `while`/live-list loops are made
total with explicit fuel; a `none` result means the fuel ran out or the
source would raise.
-/

set_option autoImplicit false

namespace MdToConf

/-! ## Definitions -/

/-- Lookup in an association list (Python `d[k]` / `k in d`). -/
def alookup {α : Type} (m : List (String × α)) (k : String) : Option α :=
  match m with
  | [] => none
  | (k2, v) :: rest => if k2 = k then some v else alookup rest k

/-- Insert/overwrite in an association list, preserving Python dict
insertion order: an existing key is updated in place, a new key is
appended at the end. -/
def ainsert {α : Type} (m : List (String × α)) (k : String) (v : α) :
    List (String × α) :=
  match m with
  | [] => [(k, v)]
  | (k2, v2) :: rest =>
    if k2 = k then (k2, v) :: rest else (k2, v2) :: ainsert rest k v

/-- Remove a key (Python `d.pop(k, None)`). -/
def aremove {α : Type} (m : List (String × α)) (k : String) :
    List (String × α) :=
  match m with
  | [] => []
  | (k2, v2) :: rest => if k2 = k then rest else (k2, v2) :: aremove rest k

/-- Keys of an association list. -/
def akeys {α : Type} (m : List (String × α)) : List String := m.map Prod.fst

/-- First-occurrence deduplication, used to model conversion of a Python
set to a list (the claims only depend on membership, and a set's
iteration order is unspecified, so the embedding fixes first-occurrence
order). -/
def dedupKeepFirst : List String → List String → List String
  | [], acc => acc.reverse
  | x :: xs, acc =>
    if x ∈ acc then dedupKeepFirst xs acc else dedupKeepFirst xs (x :: acc)

/-- Model of Python `list(set(xs) - set(ys))`. -/
def setDiff (xs ys : List String) : List String :=
  dedupKeepFirst (xs.filter (fun x => decide (x ∉ ys))) []

/-- `charsStartWith s pat`: the character list `s` starts with `pat`. -/
def charsStartWith : List Char → List Char → Bool
  | _, [] => true
  | [], _ :: _ => false
  | a :: as, b :: bs => decide (a = b) && charsStartWith as bs

/-- `charsContain s pat`: `pat` occurs as a contiguous sublist of `s`. -/
def charsContain : List Char → List Char → Bool
  | [], pat => pat.isEmpty
  | a :: as, pat => charsStartWith (a :: as) pat || charsContain as pat

/-- Model of Python `re.search('http.*', s)` being non-`None`: the string
contains `"http"` somewhere. -/
def containsSubstr (s t : String) : Bool :=
  charsContain s.data t.data

/-- Model of Python `str.startswith`. -/
def strStartsWith (s t : String) : Bool :=
  charsStartWith s.data t.data

/-- Model of Python `str.endswith`. -/
def strEndsWith (s t : String) : Bool :=
  charsStartWith s.data.reverse t.data.reverse

/-- Characters of a path after its last `/`. -/
def basenameChars : List Char → List Char → List Char
  | [], acc => acc.reverse
  | c :: cs, acc =>
    if c = '/' then basenameChars cs [] else basenameChars cs (c :: acc)

/-- Model of `os.path.basename`. -/
def basename (p : String) : String :=
  String.mk (basenameChars p.data [])

/-- Drop a reversed path's characters up to and including the first `/`. -/
def dropThroughSlash : List Char → List Char
  | [] => []
  | c :: cs => if c = '/' then cs else dropThroughSlash cs

/-- Model of `os.path.dirname`. -/
def dirname (p : String) : String :=
  String.mk (dropThroughSlash p.data.reverse).reverse

/-- A piece of rendered page markup.  The embedding keeps a body as a
sequence of chunks, where each `href` chunk stands for one
`href="target"` occurrence found by the reference-scanning regex, and
`text` chunks stand for everything else. -/
inductive Chunk where
  | text (s : String)
  | href (target : String)
deriving DecidableEq

/-- Rendered page markup. -/
abbrev Html := List Chunk

/-- The parsed record cached by `_PageCache.get_page` (the fields of the
`PageInfo` namedtuple in `page_cache.py`; `body` is the server body
after the non-round-tripping attributes have been stripped). -/
structure PageInfo where
  id : String
  version : Nat
  link : String
  ancestor : String
  labels : List String
  body : Html
  title : String
deriving DecidableEq

/-- The data `_ChildPageTracker.__delete_page` reads back from a page
before relocating it (`id`, `version.number`, `title`). -/
structure PageRead where
  id : String
  version : Nat
  title : String
deriving DecidableEq

/-- The `AttachmentInfo` namedtuple of `_PageApi.__get_attachment`:
attachment id plus the stored `sha256` hash property (absent when the
page has no `hash` property). -/
structure AttachmentInfo where
  id : String
  hash : Option String
deriving DecidableEq

/-- A page-mutating `PUT` request body as submitted by `update_page` and
`__delete_page` (`body := none` models the relocation payload, which
carries no `body` key at all). -/
structure PutPage where
  id : String
  title : String
  body : Option Html
  version : Nat
  minorEdit : Bool
  ancestors : List String
deriving DecidableEq

/-- The module-level mutable caches of the Python program, collected in
one run state: `__CACHED_PAGE_INFO` and `__RESOLVE_REFS_AGAIN` of
`page_cache.py`, `__TITLE_CACHE_BY_FILE` and `__SHA_HASH_BY_FILE` of
`file_api.py`, `__ORIGINAL_CHILD_PAGES`, `__ACTIVE_PAGES` and
`__CHILD_PAGES_CACHE` of `child_pages.py`. -/
structure S where
  cachedPageInfo : List (String × PageInfo)
  resolveRefsAgain : List String
  titleCacheByFile : List (String × String)
  shaHashByFile : List (String × String)
  originalChildPages : List (String × List String)
  activePages : List String
  childPagesCache : List (String × List String)
deriving DecidableEq

/-- The empty run state (all module caches start empty). -/
def S0 : S :=
  { cachedPageInfo := [], resolveRefsAgain := [], titleCacheByFile := [],
    shaHashByFile := [], originalChildPages := [], activePages := [],
    childPagesCache := [] }

/-- Oracle for all remote *reads* and for the local collaborators that
are out of scope (file system, markdown renderer, hashing): `pages`
models the title query of `get_page` (already parsed and normalized),
`fileTitle` the first heading of a markdown file, `renderOf` the
markdown-to-markup pipeline of `get_html` up to (but excluding) the
`resolve_refs` step, `childrenOf` the parent-search query, `readPage`
the version/title read of `__delete_page`, `attachment` the
attachment-by-filename read, `isFile` the `os.path.isfile` test,
`hashOf` the sha256 digest of a file, `uploadRespId` the attachment id
reported by the byte-upload response, `propVersion` the current version
of the attachment `hash` property (absent when the property does not
exist), and `putRespId` the page id echoed by a page-update response. -/
structure Env where
  pages : String → Option PageInfo
  fileTitle : String → String
  renderOf : String → Html
  childrenOf : String → List String
  readPage : String → PageRead
  attachment : String → String → Option AttachmentInfo
  isFile : String → Bool
  hashOf : String → String
  uploadRespId : String → String → String
  propVersion : String → Option Nat
  putRespId : String → String

/-- `_PageCache.get_page`: return the cached record for `title` if
present; otherwise query the remote store and cache the parsed result
under the title reported by the server (a missing page is a normal
`none` outcome and is not cached). -/
def get_page (env : Env) (st : S) (title : String) : Option PageInfo × S :=
  match alookup st.cachedPageInfo title with
  | some p => (some p, st)
  | none =>
    match env.pages title with
    | some p =>
      (some p, { st with cachedPageInfo := ainsert st.cachedPageInfo p.title p })
    | none => (none, st)

/-- True when the page has no `md_to_conf` ownership label. -/
def unownedPage (p : PageInfo) : Bool :=
  decide ("md_to_conf" ∉ p.labels)

/-- `_PageCache.is_page_unowned`: a page with this title exists but
lacks the tool's ownership label. -/
def is_page_unowned (env : Env) (st : S) (title : String) : Bool × S :=
  match get_page env st title with
  | (none, st2) => (false, st2)
  | (some p, st2) => (unownedPage p, st2)

/-- `_PageCache.forget_page`: evict the cache entry for `title`. -/
def forget_page (st : S) (title : String) : S :=
  { st with cachedPageInfo := aremove st.cachedPageInfo title }

/-- Targets of all `href="..."` occurrences in a body, in order (the
`re.findall` of `resolve_refs`). -/
def hrefTargets (html : Html) : List String :=
  html.filterMap (fun c => match c with
    | Chunk.href t => some t
    | Chunk.text _ => none)

/-- The relative-document-link test of `resolve_refs`:
`not ref.startswith(('http', '/')) and ref.endswith('.md')`. -/
def isRelativeMd (target : String) : Bool :=
  !(strStartsWith target "http") && !(strStartsWith target "/") &&
    strEndsWith target ".md"

/-- Model of `html.replace(ref, 'href="link"')`: every `href` chunk with
this target is rewritten to point at `link`. -/
def replaceHref (html : Html) (target link : String) : Html :=
  html.map (fun c => match c with
    | Chunk.href t => if t = target then Chunk.href link else Chunk.href t
    | Chunk.text s => Chunk.text s)

/-- The per-reference loop of `_PageCache.resolve_refs`, iterating over
the targets found in the original body: a relative `.md` link whose
target title resolves is rewritten to the page URL; otherwise the
referencing file is enqueued into `__RESOLVE_REFS_AGAIN` unless already
present. -/
def resolve_refs_loop (env : Env) (filepath : String) :
    List String → Html → S → Html × S
  | [], html, st => (html, st)
  | t :: rest, html, st =>
    if isRelativeMd t then
      let title := env.fileTitle (dirname filepath ++ "/" ++ t)
      match get_page env st title with
      | (some p, st2) =>
        resolve_refs_loop env filepath rest (replaceHref html t p.link) st2
      | (none, st2) =>
        if filepath ∈ st2.resolveRefsAgain then
          resolve_refs_loop env filepath rest html st2
        else
          resolve_refs_loop env filepath rest html
            { st2 with resolveRefsAgain := st2.resolveRefsAgain ++ [filepath] }
    else
      resolve_refs_loop env filepath rest html st

/-- `_PageCache.resolve_refs`. -/
def resolve_refs (env : Env) (st : S) (html : Html) (filepath : String) :
    Html × S :=
  resolve_refs_loop env filepath (hrefTargets html) html st

/-- The candidate produced for disambiguation attempt `i`: the base
title itself for `i = 0`, then `base (i)`. -/
def candidateTitle (base : String) (i : Nat) : String :=
  if i = 0 then base else base ++ " (" ++ toString i ++ ")"

/-- Titles already assigned this run
(`self.__TITLE_CACHE_BY_FILE.values()`). -/
def titleValues (st : S) : List String :=
  st.titleCacheByFile.map Prod.snd

/-- The collision test of the `get_title` loop:
`(title in values) or PAGE_CACHE.is_page_unowned(title)`
(short-circuiting, so the remote store is only consulted when the
title is not already assigned locally). -/
def titleCollides (env : Env) (st : S) (title : String) : Bool × S :=
  if title ∈ titleValues st then (true, st)
  else is_page_unowned env st title

/-- The `while` loop of `_FileApi.get_title`, made total by a fuel
bound: try candidates `base`, `base (1)`, `base (2)`, … until one is
free.  `none` means the fuel ran out before a free title was found. -/
def get_title_loop (env : Env) (base : String) :
    Nat → Nat → S → Option (String × S)
  | 0, _, _ => none
  | Nat.succ fuel, i, st =>
    let t := candidateTitle base i
    match titleCollides env st t with
    | (false, st2) => some (t, st2)
    | (true, st2) => get_title_loop env base fuel (i + 1) st2

/-- The memo write `self.__TITLE_CACHE_BY_FILE[filepath] = title`. -/
def memoTitle (st : S) (filepath t : String) : S :=
  { st with titleCacheByFile := ainsert st.titleCacheByFile filepath t }

/-- `_FileApi.get_title`: return the memoized title for this file if
present, otherwise disambiguate the file's base title and memoize the
result. -/
def get_title (env : Env) (fuel : Nat) (st : S) (filepath : String) :
    Option (String × S) :=
  match alookup st.titleCacheByFile filepath with
  | some t => some (t, st)
  | none =>
    let base := env.fileTitle filepath
    match get_title_loop env base fuel 0 st with
    | none => none
    | some (t, st2) => some (t, memoTitle st2 filepath t)

/-- `_FileApi.get_sha_hash`: per-run memoized content hash.  The third
component records the files whose bytes were actually hashed by this
call (empty on a cache hit), so theorems can count hash computations. -/
def get_sha_hash (env : Env) (st : S) (file : String) :
    String × S × List String :=
  match alookup st.shaHashByFile file with
  | some d => (d, st, [])
  | none =>
    let d := env.hashOf file
    (d, { st with shaHashByFile := ainsert st.shaHashByFile file d }, [file])

/-- `_FileApi.get_html`: the markdown/macro pipeline (modelled by the
`renderOf` oracle, out of scope per the spec) followed by
`PAGE_CACHE.resolve_refs` (the `LOG_HTML` branch only logs). -/
def get_html (env : Env) (st : S) (filepath : String) : Html × S :=
  resolve_refs env st (env.renderOf filepath) filepath

/-- `_ChildPageTracker.mark_page_active`: idempotent insertion into
`__ACTIVE_PAGES`. -/
def mark_page_active (st : S) (page : String) : S :=
  if page ∈ st.activePages then st
  else { st with activePages := st.activePages ++ [page] }

/-- The loop of `_ChildPageTracker.trash_needed`: return `true` as soon
as some tracked top-level page is active and has a child that is not
active. -/
def trash_needed_loop (active : List String) :
    List (String × List String) → Bool
  | [] => false
  | (p, cs) :: rest =>
    if p ∈ active then
      if cs.any (fun c => decide (c ∉ active)) then true
      else trash_needed_loop active rest
    else trash_needed_loop active rest

/-- `_ChildPageTracker.trash_needed`. -/
def trash_needed (st : S) : Bool :=
  trash_needed_loop st.activePages st.originalChildPages

/-- `_ChildPageTracker.__delete_page`: read the page's current `id`,
`version` and `title`, then submit an update whose only changes are the
bumped version and the new single ancestor `trash_ancestor` — the
payload carries no body at all. -/
def delete_page (env : Env) (page_id trash_ancestor : String) : PutPage :=
  let d := env.readPage page_id
  { id := d.id, title := d.title, body := none, version := d.version + 1,
    minorEdit := true, ancestors := [trash_ancestor] }

/-- The inner loop of `trim_child_pages` over the tracked descendants of
one active top-level page: every descendant that is not active is
relocated (in simulate mode the code only logs). -/
def trim_inner (env : Env) (simulate : Bool) (active : List String)
    (trash_ancestor : String) : List String → List PutPage
  | [] => []
  | c :: rest =>
    if c ∉ active then
      if simulate then trim_inner env simulate active trash_ancestor rest
      else
        delete_page env c trash_ancestor ::
          trim_inner env simulate active trash_ancestor rest
    else trim_inner env simulate active trash_ancestor rest

/-- The outer loop of `trim_child_pages` over `__ORIGINAL_CHILD_PAGES`:
a top-level page that is not active is spared (only logged), an active
one has its non-active descendants relocated. -/
def trim_outer (env : Env) (simulate : Bool) (active : List String)
    (trash_ancestor : String) : List (String × List String) → List PutPage
  | [] => []
  | (p, cs) :: rest =>
    if p ∉ active then trim_outer env simulate active trash_ancestor rest
    else
      trim_inner env simulate active trash_ancestor cs ++
        trim_outer env simulate active trash_ancestor rest

/-- `_ChildPageTracker.trim_child_pages`: the list of relocation
requests the call submits, in order. -/
def trim_child_pages (env : Env) (simulate : Bool) (st : S)
    (trash_ancestor : String) : List PutPage :=
  trim_outer env simulate st.activePages trash_ancestor st.originalChildPages

/-- The recursion of `_ChildPageTracker.__get_child_pages` together with
its `for` loop, combined into one fuel-indexed function (`page` embeds a
call of `__get_child_pages`, `loop` the `for page_id in page_ids` loop
with its remaining iterations and the accumulated `page_ids` value).
The source's loop variable shadows the `page_id` parameter, so after a
non-empty loop the memo write `self.__CHILD_PAGES_CACHE[page_id] = …`
uses the *last direct child* as key; the embedding reproduces this with
`(direct.getLast?).getD pid`. -/
inductive GcpCall where
  | page (pid : String)
  | loop (rest : List String) (ids : List String) (direct : List String) (pid : String)

/-- Interpreter for `GcpCall`; `none` means the fuel ran out. -/
def gcpGo (env : Env) : Nat → GcpCall → S → Option (List String × S)
  | 0, _, _ => none
  | Nat.succ fuel, GcpCall.page pid, st =>
    (match alookup st.childPagesCache pid with
     | some v => some (v, st)
     | none =>
       let direct := env.childrenOf pid
       match gcpGo env fuel (GcpCall.loop direct direct direct pid) st with
       | none => none
       | some (ids, st2) =>
         let key := (direct.getLast?).getD pid
         some (ids, { st2 with childPagesCache := ainsert st2.childPagesCache key ids }))
  | Nat.succ fuel, GcpCall.loop rest ids direct pid, st =>
    (match rest with
     | [] => some (ids, st)
     | c :: rest2 =>
       match gcpGo env fuel (GcpCall.page c) st with
       | none => none
       | some (cps, st2) =>
         let ids2 := if cps.isEmpty then ids else ids ++ setDiff cps ids
         gcpGo env fuel (GcpCall.loop rest2 ids2 direct pid) st2)

/-- `_ChildPageTracker.__get_child_pages`. -/
def get_child_pages (env : Env) (fuel : Nat) (st : S) (pid : String) :
    Option (List String × S) :=
  gcpGo env fuel (GcpCall.page pid) st

/-- The loop of `track_child_pages` over the direct children of the
root ancestor, building `__ORIGINAL_CHILD_PAGES`. -/
def track_loop (env : Env) (fuel : Nat) :
    List String → S → Option S
  | [], st => some st
  | c :: rest, st =>
    match get_child_pages env fuel st c with
    | none => none
    | some (ids, st2) =>
      track_loop env fuel rest
        { st2 with originalChildPages := ainsert st2.originalChildPages c ids }

/-- `_ChildPageTracker.track_child_pages` for root ancestor
`ancestor`. -/
def track_child_pages (env : Env) (fuel : Nat) (st : S) (ancestor : String) :
    Option S :=
  track_loop env fuel (env.childrenOf ancestor) st

/-- The write branch shared by all non-skip paths of
`_PageApi.update_page`: forget the cache entry for the title and submit
the full-page `PUT` with version `version + 1`; the returned id is the
one echoed by the server response. -/
def update_write (env : Env) (st : S) (page_id title : String) (body : Html)
    (version : Nat) (ancestors : List String) : String × S × List PutPage :=
  (env.putRespId page_id, forget_page st title,
    [{ id := page_id, title := title, body := some body,
       version := version + 1, minorEdit := true, ancestors := ancestors }])

/-- `_PageApi.update_page`.  The `__add_images` post-processing of the
body (line 160 of `page_api.py`) is applied by the caller in this model
— the `body` argument is the post-processed body, which is what the
source compares against the cache; the attachment traffic of
`__add_images` is modelled separately by `upload_attachment`.  The
result is `none` exactly when the source raises (`ancestors[0]` on an
empty ancestor list, reached when title and body both match the cached
record); otherwise it is the returned page id, the new state and the
list of page-mutating requests issued. -/
def update_page (env : Env) (st : S) (page_id title : String) (body : Html)
    (version : Nat) (ancestors : List String) :
    Option (String × S × List PutPage) :=
  match get_page env st title with
  | (some existing, st1) =>
    if title = existing.title ∧ body = existing.body then
      match ancestors with
      | [] => none
      | a :: _ =>
        if a = existing.ancestor then some (page_id, st1, [])
        else some (update_write env st1 page_id title body version ancestors)
    else some (update_write env st1 page_id title body version ancestors)
  | (none, st1) =>
    some (update_write env st1 page_id title body version ancestors)

/-- A remote request of the attachment-upload path, in the order the
source issues them: the attachment-by-filename metadata read, the byte
transfer (`create` is true when no attachment with this filename
existed), the `hash`-property version read, and the `hash`-property
write. -/
inductive AttReq where
  | getAttachment (pageId filename : String)
  | uploadBytes (pageId filename comment : String) (create : Bool)
  | getProperty (attId : String)
  | putProperty (attId sha : String) (version : Nat)
deriving DecidableEq

/-- Result of `_PageApi.__upload_attachment`: the returned boolean, the
new run state, the remote requests issued (reads and writes, in order),
and the files whose bytes were hashed during the call. -/
structure UploadOut where
  result : Bool
  state : S
  requests : List AttReq
  hashed : List String
deriving DecidableEq

/-- The tail of `__upload_attachment` after the metadata read decided an
upload is needed: transfer the bytes, read the current version of the
`hash` property (0 when absent), and write the new hash with
version + 1. -/
def upload_and_set_hash (env : Env) (st : S)
    (page_id filename comment sha : String) (create : Bool)
    (hashed : List String) : UploadOut :=
  let attId := env.uploadRespId page_id filename
  let version := (env.propVersion attId).getD 0
  { result := true, state := st,
    requests := [AttReq.getAttachment page_id filename,
                 AttReq.uploadBytes page_id filename comment create,
                 AttReq.getProperty attId,
                 AttReq.putProperty attId sha (version + 1)],
    hashed := hashed }

/-- `_PageApi.__upload_attachment`: a path containing `http` is
rejected up front; a missing local file is logged and skipped; then the
local content hash is fetched (memoized per run) and compared with the
hash stored on the existing attachment — equality skips the transfer
entirely, anything else uploads the bytes and records the new hash
property. -/
def upload_attachment (env : Env) (st : S) (page_id file comment : String) :
    UploadOut :=
  if containsSubstr file "http" then
    { result := false, state := st, requests := [], hashed := [] }
  else
    let filename := basename file
    if !(env.isFile file) then
      { result := false, state := st, requests := [], hashed := [] }
    else
      match get_sha_hash env st file with
      | (sha, st1, hashed) =>
        match env.attachment page_id filename with
        | some a =>
          if a.hash = some sha then
            { result := true, state := st1,
              requests := [AttReq.getAttachment page_id filename],
              hashed := hashed }
          else upload_and_set_hash env st1 page_id filename comment sha false hashed
        | none => upload_and_set_hash env st1 page_id filename comment sha true hashed

/-- What `_make_request` observably does: the attempts it performs and
the fixed one-second delays between them. -/
inductive ReqEvent where
  | call (attempt : Nat)
  | sleepOneSecond
deriving DecidableEq

/-- Status sequence returned by the remote endpoint: `status i` is the
HTTP status of the `i`-th identical attempt. -/
structure ReqEnv where
  status : Nat → Nat

/-- `response.raise_for_status()` raises exactly for 4xx/5xx. -/
def isHttpError (s : Nat) : Bool :=
  decide (400 ≤ s ∧ s < 600)

/-- The retry loop of `_make_request`:
`while retries and response.status_code == 401: retries -= 1; sleep(1); retry`. -/
def make_request_loop (env : ReqEnv) :
    Nat → Nat → Nat → List ReqEvent → Nat × List ReqEvent
  | 0, _, s, trace => (s, trace)
  | Nat.succ retries, i, s, trace =>
    if s = 401 then
      make_request_loop env retries (i + 1) (env.status (i + 1))
        (trace ++ [ReqEvent.sleepOneSecond, ReqEvent.call (i + 1)])
    else (s, trace)

/-- Result of `_make_request`: final status, the trace of attempts and
delays, and whether `raise_for_status` raised. -/
structure ReqResult where
  status : Nat
  trace : List ReqEvent
  raised : Bool
deriving DecidableEq

/-- `common._make_request`: one attempt, then up to two retries with a
one-second delay, taken only while the status is 401; finally
`raise_for_status` is invoked only when `check_response` is set. -/
def make_request (env : ReqEnv) (check_response : Bool) : ReqResult :=
  let s0 := env.status 0
  match make_request_loop env 2 0 s0 [ReqEvent.call 0] with
  | (s, trace) =>
    { status := s, trace := trace, raised := check_response && isHttpError s }

/-- `_Resolvers.__update_page_refs_only`: look the page up by the file's
title, re-render the file and update the page with the same title,
version and ancestor.  `none` models the source crashing (title fuel
exhausted, `page.version` on a `False` page, or `update_page`
raising). -/
def update_page_refs_only (env : Env) (tfuel : Nat) (st : S)
    (filepath : String) : Option (S × List PutPage) :=
  match get_title env tfuel st filepath with
  | none => none
  | some (title, st1) =>
    match get_page env st1 title with
    | (none, _) => none
    | (some page, st2) =>
      match get_html env st2 filepath with
      | (html, st3) =>
        match update_page env st3 page.id title html page.version
            [page.ancestor] with
        | none => none
        | some (_, st4, reqs) => some (st4, reqs)

/-- The `for page in refs_to_resolve` loop of
`_Resolvers.resolve_missing_refs`.  Python iterates the *live* list by
index, so the loop is modelled with an explicit index compared against
the current queue's length at every step; `processed` records which
files were re-processed, in order.  `ifuel` bounds the iteration. -/
def rmr_loop (env : Env) (tfuel : Nat) :
    Nat → Nat → S → List PutPage → List String →
    Option (S × List PutPage × List String)
  | 0, _, _, _, _ => none
  | Nat.succ ifuel, i, st, reqs, processed =>
    if h : i < st.resolveRefsAgain.length then
      let fp := st.resolveRefsAgain.get ⟨i, h⟩
      match update_page_refs_only env tfuel st fp with
      | none => none
      | some (st2, r) =>
        rmr_loop env tfuel ifuel (i + 1) st2 (reqs ++ r) (processed ++ [fp])
    else some (st, reqs, processed)

/-- `_Resolvers.resolve_missing_refs`. -/
def resolve_missing_refs (env : Env) (tfuel ifuel : Nat) (st : S) :
    Option (S × List PutPage × List String) :=
  rmr_loop env tfuel ifuel 0 st [] []

/-- One `update_page` call of a run (arguments as passed by the
synchronizer). -/
structure UpdCall where
  page_id : String
  title : String
  body : Html
  version : Nat
  ancestors : List String
deriving DecidableEq

/-- A sequence of `update_page` calls, threading the run state and
concatenating the page-mutating requests. -/
def run_updates (env : Env) : List UpdCall → S → Option (S × List PutPage)
  | [], st => some (st, [])
  | c :: rest, st =>
    match update_page env st c.page_id c.title c.body c.version c.ancestors with
    | none => none
    | some (_, st2, reqs) =>
      match run_updates env rest st2 with
      | none => none
      | some (st3, reqs2) => some (st3, reqs ++ reqs2)

/-- A sequence of body renderings (`resolve_refs` calls), threading the
state: the queue behaviour of a whole run's traversal. -/
def run_renders (env : Env) : List (Html × String) → S → S
  | [], st => st
  | c :: rest, st => run_renders env rest (resolve_refs env st c.fst c.snd).snd

/-- One `__upload_attachment` call of a run. -/
structure UploadCall where
  page_id : String
  file : String
  comment : String
deriving DecidableEq

/-- A sequence of attachment uploads, threading the run state and
concatenating requests and hash-computation events. -/
def run_uploads (env : Env) : List UploadCall → S → S × List AttReq × List String
  | [], st => (st, [], [])
  | c :: rest, st =>
    match upload_attachment env st c.page_id c.file c.comment with
    | out =>
      match run_uploads env rest out.state with
      | (st2, reqs, hashed) => (st2, out.requests ++ reqs, out.hashed ++ hashed)

/-- Tracker state of the spec's worked example: snapshot
`A ↦ [A1, A2]` with active set `A, A1`. -/
def c3st1 : S :=
  { S0 with originalChildPages := [("A", ["A1", "A2"])],
            activePages := ["A", "A1"] }

/-- Same snapshot with active set `A1` (the top-level page itself is not
active). -/
def c3st2 : S :=
  { S0 with originalChildPages := [("A", ["A1", "A2"])],
            activePages := ["A1"] }

/-- Same snapshot with every tracked page active. -/
def c3st3 : S :=
  { S0 with originalChildPages := [("A", ["A1", "A2"])],
            activePages := ["A", "A1", "A2"] }

/-- Tree-shapedness of a tracked snapshot: no top-level tracked page is
listed among anyone's descendants, and distinct top-level pages have
disjoint descendant lists.  This holds of any snapshot taken from the
remote store, whose hierarchy is a tree. -/
def snapshotTreelike (orig : List (String × List String)) : Prop :=
  ∀ pr ∈ orig, ∀ pr2 ∈ orig,
    pr.fst ∉ pr2.snd ∧
      (pr.fst ≠ pr2.fst → ∀ x ∈ pr.snd, x ∉ pr2.snd)

instance (orig : List (String × List String)) :
    Decidable (snapshotTreelike orig) := by
  unfold snapshotTreelike
  infer_instance

/-- Witness environment for claims about the tracker: the remote read
echoes the page's own id. -/
def trimEnvW : Env :=
  { pages := fun _ => none, fileTitle := fun _ => "", renderOf := fun _ => [],
    childrenOf := fun _ => [], isFile := fun _ => false,
    readPage := fun p => { id := p, version := 3, title := "kept title" },
    attachment := fun _ _ => none, hashOf := fun _ => "",
    uploadRespId := fun _ _ => "", propVersion := fun _ => none,
    putRespId := fun p => p }

/-- An `update_page` call whose (title, body, first-ancestor) triple
matches the cached record for its title. -/
def skip_call (st : S) (c : UpdCall) : Prop :=
  ∃ ex a rest, alookup st.cachedPageInfo c.title = some ex ∧
    c.title = ex.title ∧ c.body = ex.body ∧ c.ancestors = a :: rest ∧
    a = ex.ancestor

/-- Cached record used by the C1 witness. -/
def c1ex : PageInfo :=
  { id := "P1", version := 4, link := "http://wiki/P1", ancestor := "ANC",
    labels := ["md_to_conf"], body := [Chunk.text "body"], title := "T" }

/-- State with `T` cached, used by the C1 witness. -/
def c1st : S := { S0 with cachedPageInfo := [("T", c1ex)] }

/-- Remote hierarchy for C5: root `R` has direct child `A`, `A` has one
child `C`, and `C` is childless. -/
def c5env : Env :=
  { trimEnvW with
    childrenOf := fun p =>
      if p = "R" then ["A"] else if p = "A" then ["C"] else [] }

/-- The event trace after `n` retries: attempt 0, then a one-second
delay before each further attempt. -/
def retryTrace : Nat → List ReqEvent
  | 0 => [ReqEvent.call 0]
  | Nat.succ n => retryTrace n ++ [ReqEvent.sleepOneSecond, ReqEvent.call (n + 1)]

/-- The 404-answering endpoint of the C8 counterexample. -/
def c8env404 : ReqEnv := { status := fun _ => 404 }

/-- Remote store for the C7 witness and counterexample: the attachment
exists under id `att1` and its stored hash matches the local file's. -/
def c7envA : Env :=
  { trimEnvW with
    isFile := fun _ => true
    hashOf := fun _ => "h"
    attachment := fun _ _ =>
      some ({ id := "att1", hash := some "h" } : AttachmentInfo) }

/-- Same store but the existing attachment has a different id. -/
def c7envB : Env :=
  { c7envA with
    attachment := fun _ _ =>
      some ({ id := "att2", hash := some "h" } : AttachmentInfo) }

/-- The remote title query answers with a record whose title is the
queried title (true of the store's title search, which the page cache
relies on when keying fetched records). -/
def envTitleConsistent (env : Env) : Prop :=
  ∀ t p, env.pages t = some p → p.title = t

/-- Every cached record is keyed by its own title (true of every cache
the program builds, since `get_page` keys by the fetched title). -/
def cacheTitleConsistent (st : S) : Prop :=
  ∀ t p, alookup st.cachedPageInfo t = some p → p.title = t

/-- The collision predicate of the disambiguation loop, evaluated
statically against a fixed state: the title is already assigned to an
earlier file this run, or an existing remote page with this title lacks
the ownership label. -/
def collidesStatic (env : Env) (st : S) (title : String) : Bool :=
  decide (title ∈ titleValues st) ||
    (match alookup st.cachedPageInfo title with
     | some p => unownedPage p
     | none =>
       match env.pages title with
       | some p => unownedPage p
       | none => false)

/-- Base environment for the C4 scenarios: every file's first heading
is `T`, no remote pages exist. -/
def c4envA : Env := { trimEnvW with fileTitle := fun _ => "T" }

/-- The pre-existing remote page of the second C4 scenario: titled `T`
and carrying no ownership label. -/
def c4pageT : PageInfo :=
  { id := "PT", version := 1, link := "http://wiki/T", ancestor := "ANC",
    labels := [], body := [], title := "T" }

/-- Environment with the unowned remote page `T` already present. -/
def c4envB : Env :=
  { c4envA with pages := fun t => if t = "T" then some c4pageT else none }

/-- No remote page carries this title: the title query for it answers
nothing, and no fetch of any other title can cache a page of this
title. -/
def noPageTitled (env : Env) (title : String) : Prop :=
  env.pages title = none ∧ ∀ t p, env.pages t = some p → p.title ≠ title

/-- Remote page of the C6 witness: `T` exists, owned, with empty body
under ancestor `ANC`. -/
def c6page : PageInfo :=
  { id := "P7", version := 7, link := "http://wiki/T", ancestor := "ANC",
    labels := ["md_to_conf"], body := [], title := "T" }

/-- Environment of the C6 witness. -/
def c6env : Env :=
  { trimEnvW with
    fileTitle := fun _ => "T"
    pages := fun t => if t = "T" then some c6page else none }

/-- Run state with one queued file, for the C6 witness. -/
def c6st : S := { S0 with resolveRefsAgain := ["f1"] }

/-- The computed result of the C6 witness pass. -/
def c6res : S × List PutPage × List String :=
  (resolve_missing_refs c6env 5 3 c6st).getD (S0, [], [])

/-! ## Theorems -/

theorem alookup_ainsert_self {α : Type} (m : List (String × α)) (k : String) (v : α) :
    alookup (ainsert m k v) k = some v := by
  induction m with
  | nil => simp [ainsert, alookup]
  | cons hd tl ih =>
    obtain ⟨k2, v2⟩ := hd
    by_cases h : k2 = k
    · simp [ainsert, alookup, h]
    · simp [ainsert, alookup, h, ih]

theorem alookup_ainsert_ne {α : Type} (m : List (String × α)) (k u : String) (v : α)
    (h : k ≠ u) : alookup (ainsert m k v) u = alookup m u := by
  induction m with
  | nil => simp [ainsert, alookup, h]
  | cons hd tl ih =>
    obtain ⟨k2, v2⟩ := hd
    by_cases h2 : k2 = k
    · subst h2
      simp [ainsert, alookup, h]
    · simp only [ainsert, if_neg h2]
      by_cases h3 : k2 = u
      · simp [alookup, h3]
      · simp [alookup, h3, ih]

theorem trash_needed_loop_iff (active : List String)
    (l : List (String × List String)) :
    trash_needed_loop active l = true ↔
      ∃ p cs, (p, cs) ∈ l ∧ p ∈ active ∧ ∃ c, c ∈ cs ∧ c ∉ active := by
  induction l with
  | nil => simp [trash_needed_loop]
  | cons hd tl ih =>
    obtain ⟨p, cs⟩ := hd
    by_cases hp : p ∈ active
    · by_cases hc : cs.any (fun c => decide (c ∉ active)) = true
      · simp only [trash_needed_loop, if_pos hp, if_pos hc, true_iff]
        rcases List.any_eq_true.mp hc with ⟨c, hcs, hca⟩
        exact ⟨p, cs, List.mem_cons_self _ _, hp, c, hcs, of_decide_eq_true hca⟩
      · simp only [trash_needed_loop, if_pos hp, if_neg hc, ih]
        constructor
        · rintro ⟨q, ds, hm, hq, c, hcd, hcna⟩
          exact ⟨q, ds, List.mem_cons_of_mem _ hm, hq, c, hcd, hcna⟩
        · rintro ⟨q, ds, hm, hq, c, hcd, hcna⟩
          rcases List.mem_cons.mp hm with heq | hm2
          · exfalso
            apply hc
            injection heq with h1 h2
            subst h1; subst h2
            exact List.any_eq_true.mpr ⟨c, hcd, decide_eq_true hcna⟩
          · exact ⟨q, ds, hm2, hq, c, hcd, hcna⟩
    · simp only [trash_needed_loop, if_neg hp, ih]
      constructor
      · rintro ⟨q, ds, hm, hq, c, hcd, hcna⟩
        exact ⟨q, ds, List.mem_cons_of_mem _ hm, hq, c, hcd, hcna⟩
      · rintro ⟨q, ds, hm, hq, c, hcd, hcna⟩
        rcases List.mem_cons.mp hm with heq | hm2
        · exfalso
          injection heq with h1 h2
          subst h1; subst h2
          exact hp hq
        · exact ⟨q, ds, hm2, hq, c, hcd, hcna⟩

/-- Claim C3: `trash_needed` returns true iff some top-level key of the
tracked snapshot is in the active set and has at least one snapshot
descendant not in the active set; on snapshot `A ↦ [A1, A2]` it is true
for active set `A, A1`, and false for `A1` and for `A, A1, A2`. -/
theorem C3_trash_needed :
    (∀ st : S, trash_needed st = true ↔
      ∃ p cs, (p, cs) ∈ st.originalChildPages ∧ p ∈ st.activePages ∧
        ∃ c, c ∈ cs ∧ c ∉ st.activePages) ∧
    trash_needed c3st1 = true ∧ trash_needed c3st2 = false ∧
    trash_needed c3st3 = false :=
  ⟨fun st => trash_needed_loop_iff st.activePages st.originalChildPages,
   by decide, by decide, by decide⟩

/-- Witness for C3: instantiating the characterization on the worked
example yields the offending descendant. -/
theorem C3_trash_needed_witness :
    ∃ p cs, (p, cs) ∈ c3st1.originalChildPages ∧ p ∈ c3st1.activePages ∧
      ∃ c, c ∈ cs ∧ c ∉ c3st1.activePages :=
  (C3_trash_needed.1 c3st1).mp (by decide)

theorem trim_inner_mem (env : Env) (active : List String)
    (trash_ancestor : String) (cs : List String) (r : PutPage) :
    r ∈ trim_inner env false active trash_ancestor cs ↔
      ∃ c, c ∈ cs ∧ c ∉ active ∧ r = delete_page env c trash_ancestor := by
  induction cs with
  | nil => simp [trim_inner]
  | cons c rest ih =>
    by_cases hc : c ∈ active
    · rw [show trim_inner env false active trash_ancestor (c :: rest) =
          trim_inner env false active trash_ancestor rest from
            if_neg (not_not_intro hc), ih]
      constructor
      · rintro ⟨d, hd, hdna, hr⟩
        exact ⟨d, List.mem_cons_of_mem _ hd, hdna, hr⟩
      · rintro ⟨d, hd, hdna, hr⟩
        rcases List.mem_cons.mp hd with rfl | hd2
        · exact absurd hc hdna
        · exact ⟨d, hd2, hdna, hr⟩
    · rw [show trim_inner env false active trash_ancestor (c :: rest) =
          delete_page env c trash_ancestor ::
            trim_inner env false active trash_ancestor rest from
            (if_pos hc).trans (if_neg Bool.false_ne_true),
        List.mem_cons, ih]
      constructor
      · rintro (rfl | ⟨d, hd, hdna, hr⟩)
        · exact ⟨c, List.mem_cons_self _ _, hc, rfl⟩
        · exact ⟨d, List.mem_cons_of_mem _ hd, hdna, hr⟩
      · rintro ⟨d, hd, hdna, hr⟩
        rcases List.mem_cons.mp hd with rfl | hd2
        · exact Or.inl hr
        · exact Or.inr ⟨d, hd2, hdna, hr⟩

theorem trim_outer_mem (env : Env) (active : List String)
    (trash_ancestor : String) (l : List (String × List String)) (r : PutPage) :
    r ∈ trim_outer env false active trash_ancestor l ↔
      ∃ p cs, (p, cs) ∈ l ∧ p ∈ active ∧
        ∃ c, c ∈ cs ∧ c ∉ active ∧ r = delete_page env c trash_ancestor := by
  induction l with
  | nil => simp [trim_outer]
  | cons hd tl ih =>
    obtain ⟨p, cs⟩ := hd
    by_cases hp : p ∈ active
    · rw [show trim_outer env false active trash_ancestor ((p, cs) :: tl) =
          trim_inner env false active trash_ancestor cs ++
            trim_outer env false active trash_ancestor tl from
            if_neg (not_not_intro hp),
        List.mem_append, ih, trim_inner_mem]
      constructor
      · rintro (⟨c, hc, hcna, hr⟩ | ⟨q, ds, hm, hq, c, hc, hcna, hr⟩)
        · exact ⟨p, cs, List.mem_cons_self _ _, hp, c, hc, hcna, hr⟩
        · exact ⟨q, ds, List.mem_cons_of_mem _ hm, hq, c, hc, hcna, hr⟩
      · rintro ⟨q, ds, hm, hq, c, hc, hcna, hr⟩
        rcases List.mem_cons.mp hm with heq | hm2
        · injection heq with h1 h2
          subst h1; subst h2
          exact Or.inl ⟨c, hc, hcna, hr⟩
        · exact Or.inr ⟨q, ds, hm2, hq, c, hc, hcna, hr⟩
    · rw [show trim_outer env false active trash_ancestor ((p, cs) :: tl) =
          trim_outer env false active trash_ancestor tl from if_pos hp, ih]
      constructor
      · rintro ⟨q, ds, hm, hq, c, hc, hcna, hr⟩
        exact ⟨q, ds, List.mem_cons_of_mem _ hm, hq, c, hc, hcna, hr⟩
      · rintro ⟨q, ds, hm, hq, c, hc, hcna, hr⟩
        rcases List.mem_cons.mp hm with heq | hm2
        · exfalso
          injection heq with h1 h2
          subst h1; subst h2
          exact hp hq
        · exact ⟨q, ds, hm2, hq, c, hc, hcna, hr⟩

/-- Claim C2: with simulate off, `trim_child_pages` relocates a page id
under the trash ancestor iff the snapshot lists it as a descendant of
some active top-level tracked page while the id itself is not active;
every relocation request targets the trash ancestor; and for a
tree-shaped snapshot a non-active top-level page is left entirely
untouched together with all of its descendants. -/
theorem C2_trim_characterization (env : Env) (st : S) (trash_ancestor x : String)
    (hecho : ∀ p, (env.readPage p).id = p) :
    (x ∈ (trim_child_pages env false st trash_ancestor).map PutPage.id ↔
      ∃ p cs, (p, cs) ∈ st.originalChildPages ∧ p ∈ st.activePages ∧
        x ∈ cs ∧ x ∉ st.activePages) ∧
    (∀ r ∈ trim_child_pages env false st trash_ancestor,
      r.ancestors = [trash_ancestor]) ∧
    (snapshotTreelike st.originalChildPages →
      ∀ p cs, (p, cs) ∈ st.originalChildPages → p ∉ st.activePages →
        p ∉ (trim_child_pages env false st trash_ancestor).map PutPage.id ∧
        ∀ y ∈ cs,
          y ∉ (trim_child_pages env false st trash_ancestor).map PutPage.id) := by
  have hid : ∀ c, (delete_page env c trash_ancestor).id = c := by
    intro c
    simp [delete_page, hecho]
  have hmem : ∀ y, y ∈ (trim_child_pages env false st trash_ancestor).map PutPage.id ↔
      ∃ p cs, (p, cs) ∈ st.originalChildPages ∧ p ∈ st.activePages ∧
        y ∈ cs ∧ y ∉ st.activePages := by
    intro y
    constructor
    · intro hy
      rcases List.mem_map.mp hy with ⟨r, hr, hry⟩
      rcases (trim_outer_mem env st.activePages trash_ancestor
          st.originalChildPages r).mp hr with ⟨p, cs, hm, hp, c, hc, hcna, rfl⟩
      rw [hid c] at hry
      subst hry
      exact ⟨p, cs, hm, hp, hc, hcna⟩
    · rintro ⟨p, cs, hm, hp, hy, hyna⟩
      refine List.mem_map.mpr ⟨delete_page env y trash_ancestor, ?_, hid y⟩
      exact (trim_outer_mem env st.activePages trash_ancestor
        st.originalChildPages _).mpr ⟨p, cs, hm, hp, y, hy, hyna, rfl⟩
  refine ⟨hmem x, ?_, ?_⟩
  · intro r hr
    rcases (trim_outer_mem env st.activePages trash_ancestor
        st.originalChildPages r).mp hr with ⟨p, cs, _, _, c, _, _, rfl⟩
    simp [delete_page]
  · intro htree p cs hm hpna
    constructor
    · intro hp
      rcases (hmem p).mp hp with ⟨q, ds, hqm, _, hpds, _⟩
      exact ((htree (p, cs) hm (q, ds) hqm).1) hpds
    · intro y hy hrel
      rcases (hmem y).mp hrel with ⟨q, ds, hqm, hqa, hyds, _⟩
      have hpq : p ≠ q := fun h => hpna (h ▸ hqa)
      exact ((htree (p, cs) hm (q, ds) hqm).2 hpq) y hy hyds

/-- Witness for C2: on the spec's worked example the characterization
shows `A2` is relocated. -/
theorem C2_trim_characterization_witness :
    "A2" ∈ (trim_child_pages trimEnvW false c3st1 "TRASH").map PutPage.id :=
  (C2_trim_characterization trimEnvW c3st1 "TRASH" "A2" (fun _ => rfl)).1.mpr
    ⟨"A", ["A1", "A2"], by decide⟩

/-- Claim C9: every relocation request submitted by `trim_child_pages`
carries the freshly read title unchanged, the freshly read version plus
one, the trash ancestor as sole ancestor, and no body at all. -/
theorem C9_relocation_payload (env : Env) (st : S) (trash_ancestor : String)
    (r : PutPage) (hr : r ∈ trim_child_pages env false st trash_ancestor) :
    ∃ c, (∃ p cs, (p, cs) ∈ st.originalChildPages ∧ p ∈ st.activePages ∧
        c ∈ cs ∧ c ∉ st.activePages) ∧
      r.id = (env.readPage c).id ∧ r.title = (env.readPage c).title ∧
      r.version = (env.readPage c).version + 1 ∧
      r.ancestors = [trash_ancestor] ∧ r.body = none ∧ r.minorEdit = true := by
  rcases (trim_outer_mem env st.activePages trash_ancestor
      st.originalChildPages r).mp hr with ⟨p, cs, hm, hp, c, hc, hcna, rfl⟩
  exact ⟨c, ⟨p, cs, hm, hp, hc, hcna⟩, rfl, rfl, rfl, rfl, rfl, rfl⟩

/-- Witness for C9 at the worked example: the relocation of `A2`
preserves its read title and bumps its read version. -/
theorem C9_relocation_payload_witness :
    ∃ c, (∃ p cs, (p, cs) ∈ c3st1.originalChildPages ∧ p ∈ c3st1.activePages ∧
        c ∈ cs ∧ c ∉ c3st1.activePages) ∧
      (delete_page trimEnvW "A2" "TRASH").id = (trimEnvW.readPage c).id ∧
      (delete_page trimEnvW "A2" "TRASH").title = (trimEnvW.readPage c).title ∧
      (delete_page trimEnvW "A2" "TRASH").version =
        (trimEnvW.readPage c).version + 1 ∧
      (delete_page trimEnvW "A2" "TRASH").ancestors = ["TRASH"] ∧
      (delete_page trimEnvW "A2" "TRASH").body = none ∧
      (delete_page trimEnvW "A2" "TRASH").minorEdit = true :=
  C9_relocation_payload trimEnvW c3st1 "TRASH"
    (delete_page trimEnvW "A2" "TRASH") (by decide)

theorem update_page_skip (env : Env) (st : S) (page_id title : String)
    (body : Html) (version : Nat) (a : String) (rest : List String)
    (ex : PageInfo) (hc : alookup st.cachedPageInfo title = some ex)
    (ht : title = ex.title) (hb : body = ex.body) (ha : a = ex.ancestor) :
    update_page env st page_id title body version (a :: rest) =
      some (page_id, st, []) := by
  simp only [update_page, get_page, hc]
  rw [if_pos ⟨ht, hb⟩]
  simp only [if_pos ha]

theorem run_updates_skip (env : Env) (calls : List UpdCall) (st : S)
    (h : ∀ c ∈ calls, skip_call st c) :
    run_updates env calls st = some (st, []) := by
  induction calls with
  | nil => rfl
  | cons c rest ih =>
    rcases h c (List.mem_cons_self _ _) with ⟨ex, a, arest, hc, ht, hb, hanc, ha⟩
    have hu : update_page env st c.page_id c.title c.body c.version
        c.ancestors = some (c.page_id, st, []) := by
      rw [hanc]
      exact update_page_skip env st c.page_id c.title c.body c.version
        a arest ex hc ht hb ha
    simp only [run_updates, hu]
    rw [ih (fun d hd => h d (List.mem_cons_of_mem _ hd))]
    rfl

/-- Claim C1: an update whose title is cached and whose new title, new
post-processed body and first submitted ancestor id all equal the
cached values issues no page-write request and returns the page id and
state unchanged; consequently a run consisting only of such matching
updates issues zero page-mutating requests. -/
theorem C1_update_idempotent :
    (∀ (env : Env) (st : S) (page_id title : String) (body : Html)
        (version : Nat) (a : String) (rest : List String) (ex : PageInfo),
      alookup st.cachedPageInfo title = some ex → title = ex.title →
      body = ex.body → a = ex.ancestor →
      update_page env st page_id title body version (a :: rest) =
        some (page_id, st, [])) ∧
    (∀ (env : Env) (calls : List UpdCall) (st : S),
      (∀ c ∈ calls, skip_call st c) →
      run_updates env calls st = some (st, [])) :=
  ⟨fun env st page_id title body version a rest ex hc ht hb ha =>
     update_page_skip env st page_id title body version a rest ex hc ht hb ha,
   fun env calls st h => run_updates_skip env calls st h⟩

/-- Witness for C1: a concrete matching update is skipped, and a run of
one matching call issues no requests. -/
theorem C1_update_idempotent_witness :
    update_page trimEnvW c1st "P1" "T" [Chunk.text "body"] 4 ["ANC"] =
      some ("P1", c1st, []) ∧
    run_updates trimEnvW
        [{ page_id := "P1", title := "T", body := [Chunk.text "body"],
           version := 4, ancestors := ["ANC"] }] c1st = some (c1st, []) :=
  ⟨C1_update_idempotent.1 trimEnvW c1st "P1" "T" [Chunk.text "body"] 4
     "ANC" [] c1ex rfl rfl rfl rfl,
   C1_update_idempotent.2 trimEnvW _ c1st
     (fun c hc => by
       rcases List.mem_singleton.mp hc with rfl
       exact ⟨c1ex, "ANC", [], rfl, rfl, rfl, rfl, rfl⟩)⟩

/-- Claim C5, evaluated at the failing input: the snapshot correctly
maps the root's direct child `A` to its transitive descendants `[C]`,
but the memo map keys that list under `C` (the loop variable shadowing
the `page_id` parameter), so the memo associates `C` with `[C]` even
though `C` has no descendants, and a later enumeration of the memoized
id `C` returns `[C]` instead of `[]`. -/
theorem C5_memo_keyed_wrong :
    (track_child_pages c5env 10 S0 "R").map (fun s => s.originalChildPages) =
      some [("A", ["C"])] ∧
    (track_child_pages c5env 10 S0 "R").map
        (fun s => alookup s.childPagesCache "C") = some (some ["C"]) ∧
    c5env.childrenOf "C" = [] ∧
    ((track_child_pages c5env 10 S0 "R").bind
        (fun s => (get_child_pages c5env 10 s "C").map Prod.fst)) =
      some ["C"] := by
  refine ⟨by decide, by decide, by decide, by decide⟩

theorem make_request_cases (env : ReqEnv) (check_response : Bool) :
    (env.status 0 ≠ 401 →
      make_request env check_response =
        { status := env.status 0, trace := retryTrace 0,
          raised := check_response && isHttpError (env.status 0) }) ∧
    (env.status 0 = 401 → env.status 1 ≠ 401 →
      make_request env check_response =
        { status := env.status 1, trace := retryTrace 1,
          raised := check_response && isHttpError (env.status 1) }) ∧
    (env.status 0 = 401 → env.status 1 = 401 →
      make_request env check_response =
        { status := env.status 2, trace := retryTrace 2,
          raised := check_response && isHttpError (env.status 2) }) := by
  refine ⟨?_, ?_, ?_⟩
  · intro h0
    simp [make_request, make_request_loop, if_neg h0, retryTrace]
  · intro h0 h1
    simp [make_request, make_request_loop, h0, if_neg h1, retryTrace]
  · intro h0 h1
    simp [make_request, make_request_loop, h0, h1, retryTrace]

/-- Claim C8 (amended: raising requires response checking to be
enabled): the trace is always attempt 0 plus at most two retries, each
after a one-second delay and taken only on a 401; a non-401 first
status is never retried and, with checking enabled, raises iff it is an
HTTP error; a persistent 401 survives the retries and, with checking
enabled, raises fatally. -/
theorem C8_bounded_auth_retry (env : ReqEnv) (check_response : Bool) :
    (∃ n, n ≤ 2 ∧ (make_request env check_response).trace = retryTrace n ∧
      ∀ i, i < n → env.status i = 401) ∧
    (env.status 0 ≠ 401 →
      (make_request env check_response).trace = retryTrace 0 ∧
      (make_request env check_response).status = env.status 0 ∧
      (make_request env check_response).raised =
        (check_response && isHttpError (env.status 0))) ∧
    ((∀ i, i ≤ 2 → env.status i = 401) →
      (make_request env check_response).status = 401 ∧
      (make_request env check_response).raised = check_response) := by
  rcases make_request_cases env check_response with ⟨case0, case1, case2⟩
  by_cases h0 : env.status 0 = 401
  · by_cases h1 : env.status 1 = 401
    · refine ⟨⟨2, le_refl 2, by rw [case2 h0 h1], ?_⟩, ?_, ?_⟩
      · intro i hi
        interval_cases i
        · exact h0
        · exact h1
      · intro hne
        exact absurd h0 hne
      · intro hall
        have h2 : env.status 2 = 401 := hall 2 (le_refl 2)
        rw [case2 h0 h1]
        exact ⟨h2, by rw [h2]; cases check_response <;> rfl⟩
    · refine ⟨⟨1, by omega, by rw [case1 h0 h1], ?_⟩, ?_, ?_⟩
      · intro i hi
        interval_cases i
        exact h0
      · intro hne
        exact absurd h0 hne
      · intro hall
        exact absurd (hall 1 (by omega)) h1
  · refine ⟨⟨0, by omega, by rw [case0 h0], ?_⟩, ?_, ?_⟩
    · intro i hi
      omega
    · intro _
      rw [case0 h0]
      exact ⟨rfl, rfl, rfl⟩
    · intro hall
      exact absurd (hall 0 (by omega)) h0

/-- Witness for C8: with all three attempts answering 401 and checking
enabled, the persistent-401 branch reports status 401 and raises. -/
theorem C8_bounded_auth_retry_witness :
    (make_request { status := fun _ => 401 } true).status = 401 ∧
    (make_request { status := fun _ => 401 } true).raised = true :=
  (C8_bounded_auth_retry { status := fun _ => 401 } true).2.2
    (fun _ _ => rfl)

/-- Counterexample to C8 as stated: through the common request path
with response checking disabled (as the attachment-property read in
`page_api.py` does), a 404 — a non-401 failure status — does not raise
at all. -/
theorem C8_counterexample :
    (make_request c8env404 false).status = 404 ∧
    isHttpError 404 = true ∧ ((404 : Nat) = 401 → False) ∧
    (make_request c8env404 false).raised = false :=
  ⟨rfl, by decide, by decide, rfl⟩

/-- Claim C10: an upload call whose local path contains `http` returns
`false` with no remote request and no state change; so does a call
whose local path names no existing file. -/
theorem C10_upload_guards :
    (∀ (env : Env) (st : S) (page_id file comment : String),
      containsSubstr file "http" = true →
      upload_attachment env st page_id file comment =
        { result := false, state := st, requests := [], hashed := [] }) ∧
    (∀ (env : Env) (st : S) (page_id file comment : String),
      containsSubstr file "http" = false → env.isFile file = false →
      upload_attachment env st page_id file comment =
        { result := false, state := st, requests := [], hashed := [] }) := by
  constructor
  · intro env st page_id file comment h
    simp [upload_attachment, h]
  · intro env st page_id file comment h hf
    simp [upload_attachment, h, hf]

/-- Witness for C10: a path containing `http` and a missing file are
both rejected without any request. -/
theorem C10_upload_guards_witness :
    upload_attachment trimEnvW S0 "P" "assets/http-logo.png" "alt" =
      { result := false, state := S0, requests := [], hashed := [] } ∧
    upload_attachment trimEnvW S0 "P" "assets/missing.png" "alt" =
      { result := false, state := S0, requests := [], hashed := [] } :=
  ⟨C10_upload_guards.1 trimEnvW S0 "P" "assets/http-logo.png" "alt" (by decide),
   C10_upload_guards.2 trimEnvW S0 "P" "assets/missing.png" "alt" (by decide) rfl⟩

theorem get_sha_hash_spec (env : Env) (st : S) (file : String) :
    ((get_sha_hash env st file).snd.snd = [] ∧
      (get_sha_hash env st file).snd.fst = st) ∨
    ((get_sha_hash env st file).snd.snd = [file] ∧
      alookup st.shaHashByFile file = none ∧
      (get_sha_hash env st file).snd.fst =
        { st with
            shaHashByFile := ainsert st.shaHashByFile file (env.hashOf file) }) := by
  cases h : alookup st.shaHashByFile file with
  | some d =>
    left
    constructor <;> simp [get_sha_hash, h]
  | none =>
    right
    refine ⟨?_, rfl, ?_⟩ <;> simp [get_sha_hash, h]

theorem upload_attachment_hashed (env : Env) (st : S)
    (page_id file comment : String) :
    ((upload_attachment env st page_id file comment).hashed = [] ∧
      (upload_attachment env st page_id file comment).state.shaHashByFile =
        st.shaHashByFile) ∨
    ((upload_attachment env st page_id file comment).hashed = [file] ∧
      alookup st.shaHashByFile file = none ∧
      (upload_attachment env st page_id file comment).state.shaHashByFile =
        ainsert st.shaHashByFile file (env.hashOf file)) := by
  cases hhttp : containsSubstr file "http" with
  | true =>
    left
    constructor <;> simp [upload_attachment, hhttp]
  | false =>
    cases hfile : env.isFile file with
    | false =>
      left
      constructor <;> simp [upload_attachment, hhttp, hfile]
    | true =>
      have hspec := get_sha_hash_spec env st file
      rcases hg : get_sha_hash env st file with ⟨sha, st1, hashed⟩
      rw [hg] at hspec
      simp only at hspec
      cases hatt : env.attachment page_id (basename file) with
      | some a =>
        by_cases hsha : a.hash = some sha
        · rcases hspec with ⟨h1, h2⟩ | ⟨h1, h2, h3⟩
          · subst h1; subst h2
            left
            constructor <;>
              simp [upload_attachment, hhttp, hfile, hg, hatt, hsha]
          · subst h1; subst h3
            right
            refine ⟨?_, h2, ?_⟩ <;>
              simp [upload_attachment, hhttp, hfile, hg, hatt, hsha]
        · rcases hspec with ⟨h1, h2⟩ | ⟨h1, h2, h3⟩
          · subst h1; subst h2
            left
            constructor <;>
              simp [upload_attachment, hhttp, hfile, hg, hatt, hsha,
                upload_and_set_hash]
          · subst h1; subst h3
            right
            refine ⟨?_, h2, ?_⟩ <;>
              simp [upload_attachment, hhttp, hfile, hg, hatt, hsha,
                upload_and_set_hash]
      | none =>
        rcases hspec with ⟨h1, h2⟩ | ⟨h1, h2, h3⟩
        · subst h1; subst h2
          left
          constructor <;>
            simp [upload_attachment, hhttp, hfile, hg, hatt, upload_and_set_hash]
        · subst h1; subst h3
          right
          refine ⟨?_, h2, ?_⟩ <;>
            simp [upload_attachment, hhttp, hfile, hg, hatt, upload_and_set_hash]

theorem run_uploads_cons (env : Env) (c : UploadCall) (rest : List UploadCall)
    (st : S) :
    run_uploads env (c :: rest) st =
      ((run_uploads env rest
          (upload_attachment env st c.page_id c.file c.comment).state).fst,
       (upload_attachment env st c.page_id c.file c.comment).requests ++
         (run_uploads env rest
           (upload_attachment env st c.page_id c.file c.comment).state).snd.fst,
       (upload_attachment env st c.page_id c.file c.comment).hashed ++
         (run_uploads env rest
           (upload_attachment env st c.page_id c.file c.comment).state).snd.snd) :=
  rfl

theorem run_uploads_hash_once (env : Env) (calls : List UploadCall) :
    ∀ (st : S) (p : String),
      (alookup st.shaHashByFile p = none →
        (run_uploads env calls st).snd.snd.count p ≤ 1) ∧
      (alookup st.shaHashByFile p ≠ none →
        (run_uploads env calls st).snd.snd.count p = 0) := by
  induction calls with
  | nil =>
    intro st p
    constructor <;> intro _ <;> simp [run_uploads]
  | cons c rest ih =>
    intro st p
    rw [run_uploads_cons]
    simp only [List.count_append]
    rcases upload_attachment_hashed env st c.page_id c.file c.comment with
      ⟨h1, h2⟩ | ⟨h1, h2, h3⟩
    · rw [h1]
      simp only [List.count_nil, Nat.zero_add]
      have ihp := ih (upload_attachment env st c.page_id c.file c.comment).state p
      rw [h2] at ihp
      exact ihp
    · rw [h1]
      have ihp := ih (upload_attachment env st c.page_id c.file c.comment).state p
      rw [h3] at ihp
      by_cases hpf : p = c.file
      · have hlook : alookup (ainsert st.shaHashByFile c.file
            (env.hashOf c.file)) p = some (env.hashOf c.file) := by
          rw [hpf]
          exact alookup_ainsert_self _ _ _
        have hrest : (run_uploads env rest
            (upload_attachment env st c.page_id c.file c.comment).state).snd.snd.count
              p = 0 :=
          ihp.2 (by rw [hlook]; exact fun h => Option.noConfusion h)
        have hcnt : List.count p [c.file] = 1 := by
          rw [hpf]
          simp
        constructor
        · intro _
          rw [hrest, hcnt]
        · intro hne
          rw [hpf] at hne
          exact absurd h2 hne
      · have hlook : alookup (ainsert st.shaHashByFile c.file (env.hashOf c.file)) p =
            alookup st.shaHashByFile p :=
          alookup_ainsert_ne _ _ _ _ (fun h => hpf h.symm)
        rw [hlook] at ihp
        have hcnt : List.count p [c.file] = 0 :=
          List.count_eq_zero.mpr (fun h => hpf (List.mem_singleton.mp h))
        rw [hcnt]
        simp only [Nat.zero_add]
        exact ihp

/-- Claim C7 (amended: the call returns the boolean `True`, not the
attachment's identity): when the local hash equals the stored hash
property no byte transfer happens — only the metadata read — and the
call returns `true`; otherwise the bytes are uploaded and the `hash`
property is written with the current property version plus one, 0
standing in when the property does not exist; and each file path is
hashed at most once per run. -/
theorem C7_attachment_dedup :
    (∀ (env : Env) (st : S) (page_id file comment : String)
        (a : AttachmentInfo),
      containsSubstr file "http" = false → env.isFile file = true →
      env.attachment page_id (basename file) = some a →
      a.hash = some (get_sha_hash env st file).fst →
      (upload_attachment env st page_id file comment).result = true ∧
      (upload_attachment env st page_id file comment).requests =
        [AttReq.getAttachment page_id (basename file)]) ∧
    (∀ (env : Env) (st : S) (page_id file comment : String),
      containsSubstr file "http" = false → env.isFile file = true →
      (∀ a, env.attachment page_id (basename file) = some a →
        a.hash ≠ some (get_sha_hash env st file).fst) →
      (upload_attachment env st page_id file comment).requests =
        [AttReq.getAttachment page_id (basename file),
         AttReq.uploadBytes page_id (basename file) comment
           (env.attachment page_id (basename file)).isNone,
         AttReq.getProperty (env.uploadRespId page_id (basename file)),
         AttReq.putProperty (env.uploadRespId page_id (basename file))
           (get_sha_hash env st file).fst
           ((env.propVersion (env.uploadRespId page_id (basename file))).getD 0
             + 1)]) ∧
    (∀ (env : Env) (calls : List UploadCall) (st : S) (p : String),
      st.shaHashByFile = [] →
      (run_uploads env calls st).snd.snd.count p ≤ 1) := by
  refine ⟨?_, ?_, ?_⟩
  · intro env st page_id file comment a hhttp hfile hatt hhash
    rcases hg : get_sha_hash env st file with ⟨sha, st1, hashed⟩
    rw [hg] at hhash
    simp only at hhash
    constructor <;> simp [upload_attachment, hhttp, hfile, hg, hatt, hhash]
  · intro env st page_id file comment hhttp hfile hmiss
    cases hatt : env.attachment page_id (basename file) with
    | some a =>
      have hne := hmiss a hatt
      rcases hg : get_sha_hash env st file with ⟨sha, st1, hashed⟩
      rw [hg] at hne
      simp only at hne
      simp [upload_attachment, hhttp, hfile, hg, hatt, hne,
        upload_and_set_hash]
    | none =>
      rcases hg : get_sha_hash env st file with ⟨sha, st1, hashed⟩
      simp [upload_attachment, hhttp, hfile, hg, hatt, upload_and_set_hash]
  · intro env calls st p h0
    exact (run_uploads_hash_once env calls st p).1 (by rw [h0]; rfl)

/-- Witness for C7: with matching hashes the concrete call performs
only the metadata read and returns `true`. -/
theorem C7_attachment_dedup_witness :
    (upload_attachment c7envA S0 "P" "img.png" "alt").result = true ∧
    (upload_attachment c7envA S0 "P" "img.png" "alt").requests =
      [AttReq.getAttachment "P" "img.png"] :=
  C7_attachment_dedup.1 c7envA S0 "P" "img.png" "alt"
    { id := "att1", hash := some "h" } (by decide) (by decide) (by decide)
    (by decide)

/-- Counterexample to C7 as stated: two stores whose existing
attachments have different identities produce identical call outputs
(the boolean `true`), so the operation does not return the existing
attachment's identity. -/
theorem C7_counterexample :
    upload_attachment c7envA S0 "P" "img.png" "alt" =
      upload_attachment c7envB S0 "P" "img.png" "alt" ∧
    c7envA.attachment "P" "img.png" ≠ c7envB.attachment "P" "img.png" ∧
    (upload_attachment c7envA S0 "P" "img.png" "alt").result = true := by
  refine ⟨by decide, by decide, by decide⟩

theorem titleCollides_spec (env : Env) (st : S) (title : String)
    (henv : envTitleConsistent env) (hst : cacheTitleConsistent st) :
    (titleCollides env st title).fst = collidesStatic env st title ∧
    (titleCollides env st title).snd.titleCacheByFile = st.titleCacheByFile ∧
    cacheTitleConsistent (titleCollides env st title).snd ∧
    (∀ u, collidesStatic env (titleCollides env st title).snd u =
      collidesStatic env st u) := by
  by_cases hmem : title ∈ titleValues st
  · have hval : titleCollides env st title = (true, st) := by
      simp [titleCollides, if_pos hmem]
    rw [hval]
    refine ⟨?_, rfl, hst, fun u => rfl⟩
    simp [collidesStatic, decide_eq_true hmem]
  · cases hcache : alookup st.cachedPageInfo title with
    | some p =>
      have hval : titleCollides env st title = (unownedPage p, st) := by
        simp [titleCollides, if_neg hmem, is_page_unowned, get_page, hcache]
      rw [hval]
      refine ⟨?_, rfl, hst, fun u => rfl⟩
      simp [collidesStatic, hmem, hcache]
    | none =>
      cases hpages : env.pages title with
      | some p =>
        have hp : p.title = title := henv title p hpages
        have hval : titleCollides env st title =
            (unownedPage p,
             { st with cachedPageInfo := ainsert st.cachedPageInfo p.title p }) := by
          simp [titleCollides, if_neg hmem, is_page_unowned, get_page, hcache,
            hpages]
        rw [hval]
        refine ⟨?_, rfl, ?_, ?_⟩
        · simp [collidesStatic, hmem, hcache, hpages]
        · intro t q hq
          rw [hp] at hq
          by_cases ht : title = t
          · subst ht
            rw [alookup_ainsert_self] at hq
            injection hq with hq2
            subst hq2
            exact hp
          · rw [alookup_ainsert_ne _ _ _ _ ht] at hq
            exact hst t q hq
        · intro u
          simp only [collidesStatic, titleValues]
          rw [hp]
          by_cases hu : title = u
          · subst hu
            rw [alookup_ainsert_self, hcache, hpages]
          · rw [alookup_ainsert_ne _ _ _ _ hu]
      | none =>
        have hval : titleCollides env st title = (false, st) := by
          simp [titleCollides, if_neg hmem, is_page_unowned, get_page, hcache,
            hpages]
        rw [hval]
        refine ⟨?_, rfl, hst, fun u => rfl⟩
        simp [collidesStatic, hmem, hcache, hpages]

theorem get_title_loop_first_free (env : Env) (base : String) (n : Nat) :
    ∀ (fuel i : Nat) (st : S), envTitleConsistent env →
      cacheTitleConsistent st → i ≤ n → n - i < fuel →
      (∀ j, i ≤ j → j < n → collidesStatic env st (candidateTitle base j) = true) →
      collidesStatic env st (candidateTitle base n) = false →
      ∃ st2, get_title_loop env base fuel i st =
        some (candidateTitle base n, st2) ∧
        st2.titleCacheByFile = st.titleCacheByFile := by
  intro fuel
  induction fuel with
  | zero =>
    intro i st _ _ hin hlt _ _
    omega
  | succ f ih =>
    intro i st henv hst hin hlt hbusy hfree
    rcases titleCollides_spec env st (candidateTitle base i) henv hst with
      ⟨hfst, htc, hcons, hstat⟩
    rcases hc : titleCollides env st (candidateTitle base i) with ⟨b, stc⟩
    rw [hc] at hfst htc hcons hstat
    simp only at hfst htc hcons hstat
    by_cases hi : i = n
    · subst hi
      have hb : b = false := by rw [hfst]; exact hfree
      subst hb
      exact ⟨stc, by simp only [get_title_loop, hc], htc⟩
    · have hilt : i < n := lt_of_le_of_ne hin hi
      have hb : b = true := by rw [hfst]; exact hbusy i (le_refl i) hilt
      subst hb
      rcases ih (i + 1) stc henv hcons (by omega) (by omega)
          (fun j hj1 hj2 => by rw [hstat]; exact hbusy j (by omega) hj2)
          (by rw [hstat]; exact hfree) with ⟨st3, heq, htc3⟩
      refine ⟨st3, ?_, htc3.trans htc⟩
      simp only [get_title_loop, hc]
      exact heq

/-- Claim C4: `get_title` returns the first candidate of the sequence
`T`, `T (1)`, `T (2)`, … that neither equals a title assigned earlier
this run nor names an existing unowned remote page, and memoizes it;
hence two files with base title `T` receive `T` and `T (1)` in
first-encounter order, and a pre-existing unowned page `T` forces the
first file to `T (1)`. -/
theorem C4_title_disambiguation :
    (∀ (env : Env) (fuel n : Nat) (st : S) (filepath : String),
      envTitleConsistent env → cacheTitleConsistent st →
      alookup st.titleCacheByFile filepath = none →
      (∀ j, j < n →
        collidesStatic env st (candidateTitle (env.fileTitle filepath) j) = true) →
      collidesStatic env st (candidateTitle (env.fileTitle filepath) n) = false →
      n < fuel →
      ∃ st2, get_title env fuel st filepath =
        some (candidateTitle (env.fileTitle filepath) n, st2) ∧
        alookup st2.titleCacheByFile filepath =
          some (candidateTitle (env.fileTitle filepath) n)) ∧
    (get_title c4envA 5 S0 "f1").map Prod.fst = some "T" ∧
    ((get_title c4envA 5 S0 "f1").bind
      (fun r => (get_title c4envA 5 r.snd "f2").map Prod.fst)) =
        some ("T (1)") ∧
    (get_title c4envB 5 S0 "f1").map Prod.fst = some ("T (1)") := by
  refine ⟨?_, by decide, by decide, by decide⟩
  intro env fuel n st filepath henv hst hmiss hbusy hfree hfuel
  rcases get_title_loop_first_free env (env.fileTitle filepath) n fuel 0 st henv
      hst (Nat.zero_le n) (by omega) (fun j _ hj => hbusy j hj) hfree with
    ⟨st2, heq, _⟩
  refine ⟨memoTitle st2 filepath (candidateTitle (env.fileTitle filepath) n),
    ?_, ?_⟩
  · simp only [get_title, hmiss, heq]
  · exact alookup_ainsert_self _ _ _

/-- Witness for C4: applying the disambiguation theorem in the
unowned-page scenario yields `T (1)` for the first file (`n = 1`, the
base title colliding with the unowned remote page). -/
theorem C4_title_disambiguation_witness :
    ∃ st2, get_title c4envB 5 S0 "f1" =
      some (candidateTitle (c4envB.fileTitle "f1") 1, st2) ∧
      alookup st2.titleCacheByFile "f1" =
        some (candidateTitle (c4envB.fileTitle "f1") 1) :=
  C4_title_disambiguation.1 c4envB 5 1 S0 "f1"
    (fun t p h => by
      simp only [c4envB] at h
      by_cases ht : t = "T"
      · subst ht
        rw [if_pos rfl] at h
        injection h with h2
        subst h2
        rfl
      · rw [if_neg ht] at h
        exact Option.noConfusion h)
    (fun t p h => Option.noConfusion h)
    rfl
    (fun j hj => by
      have hj0 : j = 0 := by omega
      subst hj0
      decide)
    (by decide)
    (by omega)

theorem get_page_frame (env : Env) (st : S) (title : String) :
    (get_page env st title).snd.resolveRefsAgain = st.resolveRefsAgain ∧
    (get_page env st title).snd.titleCacheByFile = st.titleCacheByFile := by
  cases h : alookup st.cachedPageInfo title with
  | some p =>
    constructor <;> simp [get_page, h]
  | none =>
    cases h2 : env.pages title with
    | some p => constructor <;> simp [get_page, h, h2]
    | none => constructor <;> simp [get_page, h, h2]

theorem is_page_unowned_state (env : Env) (st : S) (title : String) :
    (is_page_unowned env st title).snd = (get_page env st title).snd := by
  rcases h : get_page env st title with ⟨op, st2⟩
  cases op <;> simp [is_page_unowned, h]

theorem titleCollides_queue (env : Env) (st : S) (title : String) :
    (titleCollides env st title).snd.resolveRefsAgain = st.resolveRefsAgain := by
  by_cases hmem : title ∈ titleValues st
  · simp [titleCollides, if_pos hmem]
  · rw [show (titleCollides env st title).snd =
        (is_page_unowned env st title).snd from by
        simp [titleCollides, if_neg hmem]]
    rw [is_page_unowned_state]
    exact (get_page_frame env st title).1

theorem get_title_loop_queue (env : Env) (base : String) :
    ∀ (fuel i : Nat) (st : S) (t : String) (st2 : S),
      get_title_loop env base fuel i st = some (t, st2) →
      st2.resolveRefsAgain = st.resolveRefsAgain := by
  intro fuel
  induction fuel with
  | zero =>
    intro i st t st2 h
    exact absurd h (by simp [get_title_loop])
  | succ f ih =>
    intro i st t st2 h
    rcases hc : titleCollides env st (candidateTitle base i) with ⟨b, stc⟩
    have hq := titleCollides_queue env st (candidateTitle base i)
    rw [hc] at hq
    simp only at hq
    cases b with
    | false =>
      rw [show get_title_loop env base (f + 1) i st =
          some (candidateTitle base i, stc) from by
        simp only [get_title_loop, hc]] at h
      simp only [Option.some.injEq, Prod.mk.injEq] at h
      rw [← h.2]
      exact hq
    | true =>
      rw [show get_title_loop env base (f + 1) i st =
          get_title_loop env base f (i + 1) stc from by
        simp only [get_title_loop, hc]] at h
      exact (ih (i + 1) stc t st2 h).trans hq

theorem get_title_queue (env : Env) (fuel : Nat) (st : S) (filepath t : String)
    (st2 : S) (h : get_title env fuel st filepath = some (t, st2)) :
    st2.resolveRefsAgain = st.resolveRefsAgain := by
  unfold get_title at h
  cases hm : alookup st.titleCacheByFile filepath with
  | some t0 =>
    rw [hm] at h
    simp only [Option.some.injEq, Prod.mk.injEq] at h
    rw [← h.2]
  | none =>
    rw [hm] at h
    simp only at h
    cases hloop : get_title_loop env (env.fileTitle filepath) fuel 0 st with
    | none =>
      rw [hloop] at h
      exact absurd h (by simp)
    | some r =>
      rcases r with ⟨t0, st3⟩
      rw [hloop] at h
      simp only [Option.some.injEq, Prod.mk.injEq] at h
      have hq3 := get_title_loop_queue env (env.fileTitle filepath) fuel 0 st
        t0 st3 hloop
      rw [← h.2]
      exact hq3

theorem update_page_queue (env : Env) (st : S) (page_id title : String)
    (body : Html) (version : Nat) (ancestors : List String) (pid2 : String)
    (st2 : S) (reqs : List PutPage)
    (h : update_page env st page_id title body version ancestors =
      some (pid2, st2, reqs)) :
    st2.resolveRefsAgain = st.resolveRefsAgain := by
  have hframe := (get_page_frame env st title).1
  rcases hgp : get_page env st title with ⟨op, st1⟩
  rw [hgp] at hframe
  simp only at hframe
  unfold update_page at h
  rw [hgp] at h
  cases op with
  | some ex =>
    simp only at h
    by_cases hcond : title = ex.title ∧ body = ex.body
    · rw [if_pos hcond] at h
      cases ancestors with
      | nil => exact absurd h (by simp)
      | cons a arest =>
        simp only at h
        by_cases ha : a = ex.ancestor
        · rw [if_pos ha] at h
          simp only [Option.some.injEq, Prod.mk.injEq] at h
          rw [← h.2.1]
          exact hframe
        · rw [if_neg ha] at h
          simp only [update_write, Option.some.injEq, Prod.mk.injEq] at h
          rw [← h.2.1]
          exact hframe
    · rw [if_neg hcond] at h
      simp only [update_write, Option.some.injEq, Prod.mk.injEq] at h
      rw [← h.2.1]
      exact hframe
  | none =>
    simp only [update_write, Option.some.injEq, Prod.mk.injEq] at h
    rw [← h.2.1]
    exact hframe

theorem resolve_refs_loop_queue (env : Env) (fp : String) :
    ∀ (refs : List String) (html : Html) (st : S),
      (resolve_refs_loop env fp refs html st).snd.resolveRefsAgain =
          st.resolveRefsAgain ∨
        ((resolve_refs_loop env fp refs html st).snd.resolveRefsAgain =
            st.resolveRefsAgain ++ [fp] ∧ fp ∉ st.resolveRefsAgain) := by
  intro refs
  induction refs with
  | nil =>
    intro html st
    exact Or.inl rfl
  | cons u rest ih =>
    intro html st
    by_cases hrel : isRelativeMd u = true
    · have hframe :=
        (get_page_frame env st (env.fileTitle (dirname fp ++ "/" ++ u))).1
      rcases hgp : get_page env st (env.fileTitle (dirname fp ++ "/" ++ u)) with
        ⟨op, st2⟩
      rw [hgp] at hframe
      simp only at hframe
      cases op with
      | some p =>
        rw [show resolve_refs_loop env fp (u :: rest) html st =
            resolve_refs_loop env fp rest (replaceHref html u p.link) st2 from by
          simp only [resolve_refs_loop, if_pos hrel, hgp]]
        rcases ih (replaceHref html u p.link) st2 with h | ⟨h1, h2⟩
        · exact Or.inl (h.trans hframe)
        · rw [hframe] at h1 h2
          exact Or.inr ⟨h1, h2⟩
      | none =>
        by_cases hin : fp ∈ st2.resolveRefsAgain
        · rw [show resolve_refs_loop env fp (u :: rest) html st =
              resolve_refs_loop env fp rest html st2 from by
            simp only [resolve_refs_loop, if_pos hrel, hgp, if_pos hin]]
          rcases ih html st2 with h | ⟨h1, h2⟩
          · exact Or.inl (h.trans hframe)
          · rw [hframe] at h1 h2
            exact Or.inr ⟨h1, h2⟩
        · rw [show resolve_refs_loop env fp (u :: rest) html st =
              resolve_refs_loop env fp rest html
                { st2 with
                    resolveRefsAgain := st2.resolveRefsAgain ++ [fp] } from by
            simp only [resolve_refs_loop, if_pos hrel, hgp, if_neg hin]]
          rcases ih html
              { st2 with resolveRefsAgain := st2.resolveRefsAgain ++ [fp] } with
            h | ⟨h1, h2⟩
          · right
            rw [hframe] at hin
            constructor
            · rw [h]
              simp only
              rw [hframe]
            · exact hin
          · exfalso
            simp only at h2
            exact h2 (List.mem_append.mpr (Or.inr (List.mem_singleton.mpr rfl)))
    · rw [show resolve_refs_loop env fp (u :: rest) html st =
          resolve_refs_loop env fp rest html st from by
        simp only [resolve_refs_loop]
        rw [if_neg hrel]]
      exact ih html st

theorem resolve_refs_queue_of_mem (env : Env) (st : S) (html : Html)
    (fp : String) (hin : fp ∈ st.resolveRefsAgain) :
    (resolve_refs env st html fp).snd.resolveRefsAgain = st.resolveRefsAgain := by
  rcases resolve_refs_loop_queue env fp (hrefTargets html) html st with
    h | ⟨_, h2⟩
  · exact h
  · exact absurd hin h2

theorem update_page_refs_only_queue (env : Env) (tfuel : Nat) (st : S)
    (fp : String) (st4 : S) (reqs : List PutPage)
    (hin : fp ∈ st.resolveRefsAgain)
    (h : update_page_refs_only env tfuel st fp = some (st4, reqs)) :
    st4.resolveRefsAgain = st.resolveRefsAgain := by
  unfold update_page_refs_only at h
  cases ht : get_title env tfuel st fp with
  | none =>
    rw [ht] at h
    exact absurd h (by simp)
  | some r1 =>
    rcases r1 with ⟨title, st1⟩
    rw [ht] at h
    simp only at h
    have hq1 : st1.resolveRefsAgain = st.resolveRefsAgain :=
      get_title_queue env tfuel st fp title st1 ht
    have hframe2 := (get_page_frame env st1 title).1
    rcases hgp : get_page env st1 title with ⟨op, st2⟩
    rw [hgp] at h hframe2
    simp only at hframe2
    cases op with
    | none => exact absurd h (by simp)
    | some page =>
      simp only at h
      have hq2 : st2.resolveRefsAgain = st.resolveRefsAgain :=
        hframe2.trans hq1
      rcases hgh : get_html env st2 fp with ⟨html, st3⟩
      rw [hgh] at h
      simp only at h
      have hq3 : st3.resolveRefsAgain = st.resolveRefsAgain := by
        have := resolve_refs_queue_of_mem env st2 (env.renderOf fp) fp
          (by rw [hq2]; exact hin)
        rw [show (resolve_refs env st2 (env.renderOf fp) fp).snd = st3 from by
          rw [show resolve_refs env st2 (env.renderOf fp) fp = (html, st3) from hgh]]
          at this
        exact this.trans hq2
      cases hup : update_page env st3 page.id title html page.version
          [page.ancestor] with
      | none =>
        rw [hup] at h
        exact absurd h (by simp)
      | some r2 =>
        rcases r2 with ⟨pid2, st5, reqs2⟩
        rw [hup] at h
        simp only [Option.some.injEq, Prod.mk.injEq] at h
        have hq5 : st5.resolveRefsAgain = st3.resolveRefsAgain :=
          update_page_queue env st3 page.id title html page.version
            [page.ancestor] pid2 st5 reqs2 hup
        rw [← h.1]
        exact hq5.trans hq3

theorem rmr_loop_spec (env : Env) (tfuel : Nat) :
    ∀ (ifuel i : Nat) (st : S) (reqs : List PutPage) (processed : List String)
      (res : S × List PutPage × List String),
      rmr_loop env tfuel ifuel i st reqs processed = some res →
      res.fst.resolveRefsAgain = st.resolveRefsAgain ∧
      res.snd.snd = processed ++ st.resolveRefsAgain.drop i := by
  intro ifuel
  induction ifuel with
  | zero =>
    intro i st reqs processed res h
    exact absurd h (by simp [rmr_loop])
  | succ f ih =>
    intro i st reqs processed res h
    by_cases hlt : i < st.resolveRefsAgain.length
    · rw [show rmr_loop env tfuel (f + 1) i st reqs processed =
          (match update_page_refs_only env tfuel st
              (st.resolveRefsAgain.get ⟨i, hlt⟩) with
           | none => none
           | some (st2, r) =>
             rmr_loop env tfuel f (i + 1) st2 (reqs ++ r)
               (processed ++ [st.resolveRefsAgain.get ⟨i, hlt⟩])) from by
        simp only [rmr_loop, dif_pos hlt]] at h
      cases hup : update_page_refs_only env tfuel st
          (st.resolveRefsAgain.get ⟨i, hlt⟩) with
      | none =>
        rw [hup] at h
        exact absurd h (by simp)
      | some r2 =>
        rcases r2 with ⟨st2, r⟩
        rw [hup] at h
        simp only at h
        have hq2 : st2.resolveRefsAgain = st.resolveRefsAgain :=
          update_page_refs_only_queue env tfuel st
            (st.resolveRefsAgain.get ⟨i, hlt⟩) st2 r
            (List.get_mem _ _ hlt) hup
        rcases ih (i + 1) st2 (reqs ++ r)
            (processed ++ [st.resolveRefsAgain.get ⟨i, hlt⟩]) res h with
          ⟨hq, hp⟩
        rw [hq2] at hq hp
        refine ⟨hq, ?_⟩
        rw [hp, List.append_assoc]
        congr 1
        rw [List.get_eq_getElem, List.singleton_append,
          ← List.drop_eq_getElem_cons hlt]
    · rw [show rmr_loop env tfuel (f + 1) i st reqs processed =
          some (st, reqs, processed) from by
        simp only [rmr_loop, dif_neg hlt]] at h
      simp only [Option.some.injEq] at h
      subst h
      refine ⟨rfl, ?_⟩
      rw [List.drop_eq_nil_of_le (by omega), List.append_nil]

theorem resolve_refs_loop_mono (env : Env) (fp x : String) :
    ∀ (refs : List String) (html : Html) (st : S),
      x ∈ st.resolveRefsAgain →
      x ∈ (resolve_refs_loop env fp refs html st).snd.resolveRefsAgain := by
  intro refs
  induction refs with
  | nil =>
    intro html st hx
    exact hx
  | cons u rest ih =>
    intro html st hx
    by_cases hrel : isRelativeMd u = true
    · have hframe :=
        (get_page_frame env st (env.fileTitle (dirname fp ++ "/" ++ u))).1
      rcases hgp : get_page env st (env.fileTitle (dirname fp ++ "/" ++ u)) with
        ⟨op, st2⟩
      rw [hgp] at hframe
      simp only at hframe
      have hx2 : x ∈ st2.resolveRefsAgain := by rw [hframe]; exact hx
      cases op with
      | some p =>
        rw [show resolve_refs_loop env fp (u :: rest) html st =
            resolve_refs_loop env fp rest (replaceHref html u p.link) st2 from by
          simp only [resolve_refs_loop, if_pos hrel, hgp]]
        exact ih (replaceHref html u p.link) st2 hx2
      | none =>
        by_cases hin : fp ∈ st2.resolveRefsAgain
        · rw [show resolve_refs_loop env fp (u :: rest) html st =
              resolve_refs_loop env fp rest html st2 from by
            simp only [resolve_refs_loop, if_pos hrel, hgp, if_pos hin]]
          exact ih html st2 hx2
        · rw [show resolve_refs_loop env fp (u :: rest) html st =
              resolve_refs_loop env fp rest html
                { st2 with
                    resolveRefsAgain := st2.resolveRefsAgain ++ [fp] } from by
            simp only [resolve_refs_loop, if_pos hrel, hgp, if_neg hin]]
          exact ih html _ (List.mem_append.mpr (Or.inl hx2))
    · rw [show resolve_refs_loop env fp (u :: rest) html st =
          resolve_refs_loop env fp rest html st from by
        simp only [resolve_refs_loop]
        rw [if_neg hrel]]
      exact ih html st hx

theorem resolve_refs_loop_enqueues (env : Env) (fp t : String)
    (hmd : isRelativeMd t = true)
    (hnone : noPageTitled env (env.fileTitle (dirname fp ++ "/" ++ t))) :
    ∀ (refs : List String) (html : Html) (st : S), t ∈ refs →
      alookup st.cachedPageInfo (env.fileTitle (dirname fp ++ "/" ++ t)) =
        none →
      fp ∈ (resolve_refs_loop env fp refs html st).snd.resolveRefsAgain := by
  intro refs
  induction refs with
  | nil =>
    intro html st ht _
    exact absurd ht (List.not_mem_nil t)
  | cons u rest ih =>
    intro html st ht hcache
    rcases List.mem_cons.mp ht with rfl | htr
    · have hgp : get_page env st (env.fileTitle (dirname fp ++ "/" ++ t)) =
          (none, st) := by
        simp [get_page, hcache, hnone.1]
      by_cases hin : fp ∈ st.resolveRefsAgain
      · rw [show resolve_refs_loop env fp (t :: rest) html st =
            resolve_refs_loop env fp rest html st from by
          simp only [resolve_refs_loop, if_pos hmd, hgp, if_pos hin]]
        exact resolve_refs_loop_mono env fp fp rest html st hin
      · rw [show resolve_refs_loop env fp (t :: rest) html st =
            resolve_refs_loop env fp rest html
              { st with resolveRefsAgain := st.resolveRefsAgain ++ [fp] } from by
          simp only [resolve_refs_loop, if_pos hmd, hgp, if_neg hin]]
        exact resolve_refs_loop_mono env fp fp rest html _
          (List.mem_append.mpr (Or.inr (List.mem_singleton.mpr rfl)))
    · by_cases hrel : isRelativeMd u = true
      · rcases hgp : get_page env st (env.fileTitle (dirname fp ++ "/" ++ u)) with
          ⟨op, st2⟩
        have hcache2 : alookup st2.cachedPageInfo
            (env.fileTitle (dirname fp ++ "/" ++ t)) = none := by
          unfold get_page at hgp
          cases hlk : alookup st.cachedPageInfo
              (env.fileTitle (dirname fp ++ "/" ++ u)) with
          | some p =>
            rw [hlk] at hgp
            simp only [Prod.mk.injEq] at hgp
            rw [← hgp.2]
            exact hcache
          | none =>
            rw [hlk] at hgp
            cases hpg : env.pages (env.fileTitle (dirname fp ++ "/" ++ u)) with
            | some p =>
              rw [hpg] at hgp
              simp only [Prod.mk.injEq] at hgp
              rw [← hgp.2]
              simp only
              rw [alookup_ainsert_ne _ _ _ _
                (hnone.2 (env.fileTitle (dirname fp ++ "/" ++ u)) p hpg)]
              exact hcache
            | none =>
              rw [hpg] at hgp
              simp only [Prod.mk.injEq] at hgp
              rw [← hgp.2]
              exact hcache
        cases op with
        | some p =>
          rw [show resolve_refs_loop env fp (u :: rest) html st =
              resolve_refs_loop env fp rest (replaceHref html u p.link) st2 from by
            simp only [resolve_refs_loop, if_pos hrel, hgp]]
          exact ih (replaceHref html u p.link) st2 htr hcache2
        | none =>
          by_cases hin : fp ∈ st2.resolveRefsAgain
          · rw [show resolve_refs_loop env fp (u :: rest) html st =
                resolve_refs_loop env fp rest html st2 from by
              simp only [resolve_refs_loop, if_pos hrel, hgp, if_pos hin]]
            exact ih html st2 htr hcache2
          · rw [show resolve_refs_loop env fp (u :: rest) html st =
                resolve_refs_loop env fp rest html
                  { st2 with
                      resolveRefsAgain := st2.resolveRefsAgain ++ [fp] } from by
              simp only [resolve_refs_loop, if_pos hrel, hgp, if_neg hin]]
            exact ih html _ htr hcache2
      · rw [show resolve_refs_loop env fp (u :: rest) html st =
            resolve_refs_loop env fp rest html st from by
          simp only [resolve_refs_loop]
          rw [if_neg hrel]]
        exact ih html st htr hcache

theorem resolve_refs_nodup (env : Env) (st : S) (html : Html) (fp : String)
    (h : st.resolveRefsAgain.Nodup) :
    (resolve_refs env st html fp).snd.resolveRefsAgain.Nodup := by
  unfold resolve_refs
  rcases resolve_refs_loop_queue env fp (hrefTargets html) html st with
    hq | ⟨h1, h2⟩
  · rw [hq]
    exact h
  · rw [h1]
    exact List.nodup_append.mpr
      ⟨h, List.nodup_singleton fp,
       fun a ha hb => h2 ((List.mem_singleton.mp hb) ▸ ha)⟩

theorem run_renders_nodup (env : Env) (calls : List (Html × String)) :
    ∀ st : S, st.resolveRefsAgain.Nodup →
      (run_renders env calls st).resolveRefsAgain.Nodup := by
  induction calls with
  | nil =>
    intro st h
    exact h
  | cons c rest ih =>
    intro st h
    exact ih _ (resolve_refs_nodup env st c.fst c.snd h)

/-- Claim C6: during rendering a call of `resolve_refs` either leaves
the queue unchanged or appends the referencing file exactly once (and
only when it was absent); a relative `.md` reference whose target title
has no remote page does enqueue the referencing file; across any
sequence of renders the queue stays duplicate-free, so a path is
enqueued at most once per run; and a successful `resolve_missing_refs`
pass re-processes exactly the queued files, once each, in queue order,
leaving the queue as it was — a single extra pass. -/
theorem C6_resolution_queue :
    (∀ (env : Env) (st : S) (html : Html) (fp : String),
      (resolve_refs env st html fp).snd.resolveRefsAgain =
          st.resolveRefsAgain ∨
        ((resolve_refs env st html fp).snd.resolveRefsAgain =
            st.resolveRefsAgain ++ [fp] ∧ fp ∉ st.resolveRefsAgain)) ∧
    (∀ (env : Env) (st : S) (html : Html) (fp t : String),
      t ∈ hrefTargets html → isRelativeMd t = true →
      noPageTitled env (env.fileTitle (dirname fp ++ "/" ++ t)) →
      alookup st.cachedPageInfo (env.fileTitle (dirname fp ++ "/" ++ t)) =
        none →
      fp ∈ (resolve_refs env st html fp).snd.resolveRefsAgain) ∧
    (∀ (env : Env) (calls : List (Html × String)) (st : S),
      st.resolveRefsAgain.Nodup →
      (run_renders env calls st).resolveRefsAgain.Nodup) ∧
    (∀ (env : Env) (tfuel ifuel : Nat) (st : S)
        (res : S × List PutPage × List String),
      resolve_missing_refs env tfuel ifuel st = some res →
      res.snd.snd = st.resolveRefsAgain ∧
      res.fst.resolveRefsAgain = st.resolveRefsAgain) :=
  ⟨fun env st html fp => resolve_refs_loop_queue env fp (hrefTargets html) html st,
   fun env st html fp t ht hmd hnone hcache =>
     resolve_refs_loop_enqueues env fp t hmd hnone (hrefTargets html) html st
       ht hcache,
   fun env calls st h => run_renders_nodup env calls st h,
   fun env tfuel ifuel st res h =>
     ⟨((rmr_loop_spec env tfuel ifuel 0 st [] [] res h).2).trans
        (by rw [List.drop_zero, List.nil_append]),
      (rmr_loop_spec env tfuel ifuel 0 st [] [] res h).1⟩⟩

/-- Witness for C6: a concrete successful pass over the queue `[f1]`
processes exactly `f1`, once, and leaves the queue unchanged. -/
theorem C6_resolution_queue_witness :
    c6res.snd.snd = c6st.resolveRefsAgain ∧
    c6res.fst.resolveRefsAgain = c6st.resolveRefsAgain :=
  C6_resolution_queue.2.2.2 c6env 5 3 c6st c6res (by decide)

end MdToConf
